import Mathlib

/-!
Shallow embedding of the form-modeling and submission layer of
haruyama/surf (src/browser/form.go).

The Go code manipulates `url.Values` (a map from string to []string) and a
`map[string]bool` of defined field names.  We model `url.Values` as an
association list with unique keys (every state the program builds starts
from the empty map and is modified only through `Add`/`Set`/`Del`, which
preserve key uniqueness; the association-list operations below agree with
the Go map operations on such states).  Go map iteration order is
unspecified; where the code iterates (`Submit` picking a button), the model
picks the first stored entry.

The DOM selection is modelled as the data `serializeForm` and `send`
actually read from it: the `input`/`button` descendants in document order
with their `name`/`type`/`value`/`checked` attributes, the `select`
descendants with their `option` children, the `textarea` descendants with
their text, and the form's own `method`/`action`/`enctype` attributes.
An attribute is `Option String`: `none` means the attribute is absent
(goquery's `Attr` returns `ok = false`).

URL parsing and resolution (`url.Parse`, `bow.ResolveUrl`) and the HTTP
transport are out of scope for every claim about this layer: `send` is
modelled as returning which of the three `Browsable` dispatch operations
(`OpenForm` / `PostMultipart` / `PostForm`) is invoked and with which
values.  `strings.ToUpper` is modelled by the character-wise `toUpper`
below, which agrees with it on ASCII strings such as the ones compared
against `"GET"`.
-/

set_option autoImplicit false

namespace Surf

/-- `url.Values`: a map from field name to an ordered list of values,
modelled as an association list with unique keys. -/
abbrev Values := List (String × List String)

namespace Values

/-- Go map indexing `v[key]`: the value slice, nil (`[]`) when absent. -/
def lookup : Values → String → List String
  | [], _ => []
  | (k, vs) :: rest, key => if k == key then vs else lookup rest key

/-- Presence check `_, ok := v[key]`. -/
def hasKey (m : Values) (key : String) : Bool :=
  m.any (fun p => p.1 == key)

/-- `url.Values.Add`: appends `value` to the values of `key`. -/
def Add : Values → String → String → Values
  | [], key, value => [(key, [value])]
  | (k, vs) :: rest, key, value =>
    if k == key then (k, vs ++ [value]) :: rest
    else (k, vs) :: Add rest key value

/-- `url.Values.Set`: replaces the values of `key` with the single `value`. -/
def Set : Values → String → String → Values
  | [], key, value => [(key, [value])]
  | (k, vs) :: rest, key, value =>
    if k == key then (k, [value]) :: rest
    else (k, vs) :: Set rest key value

/-- `url.Values.Del`: removes `key` and its values. -/
def Del : Values → String → Values
  | [], _ => []
  | (k, vs) :: rest, key =>
    if k == key then Del rest key else (k, vs) :: Del rest key

/-- `url.Values.Get`: the first value associated with `key`, `""` when
there is none. -/
def Get (m : Values) (key : String) : String :=
  match lookup m key with
  | [] => ""
  | v :: _ => v

end Values

/-- Whether a control element is an `<input>` or a `<button>`.  The Go
code selects both with `sel.Find("input,button")` and then treats them
identically, branching only on the `type` attribute; the tag is recorded
here so that claims about `<button>` elements can be stated. -/
inductive CtrlTag where
  | input
  | button
deriving DecidableEq, Repr

/-- An `<input>` or `<button>` descendant of the form, with the attributes
`serializeForm` reads.  `checked` keeps the raw attribute so that
"presence only, value ignored" is visible in the model. -/
structure InputElem where
  tag : CtrlTag
  name : Option String
  typ : Option String
  value : Option String
  checked : Option String
deriving DecidableEq, Repr

/-- An `<option>` child of a `<select>`; `selected` is the presence of the
`selected` attribute (the code matches `option[selected]`). -/
structure OptionElem where
  selected : Bool
  value : Option String
deriving DecidableEq, Repr

/-- A `<select>` descendant of the form. -/
structure SelectElem where
  name : Option String
  options : List OptionElem
deriving DecidableEq, Repr

/-- A `<textarea>` descendant of the form; `text` is its text content. -/
structure TextareaElem where
  name : Option String
  text : String
deriving DecidableEq, Repr

/-- The data the code reads from the form's DOM selection. -/
structure FormDoc where
  inputs : List InputElem
  selects : List SelectElem
  textareas : List TextareaElem
  methodAttr : Option String
  actionAttr : Option String
  enctypeAttr : Option String
deriving DecidableEq, Repr

/-- The triple built by `serializeForm`: the defined field names, the
field values and the button values. -/
structure SerAcc where
  definedFields : List String
  fields : Values
  buttons : Values
deriving DecidableEq, Repr

/-- `definedFields[name] = true` on the `map[string]bool`, modelled as
inserting into a duplicate-free list. -/
def insertName (d : List String) (n : String) : List String :=
  if d.contains n then d else d ++ [n]

/-- One step of the `input,button` loop of `serializeForm`
(form.go:188-218).  Elements without a `name` attribute, and elements
without a `type` attribute, leave the accumulator unchanged. -/
def serInput (acc : SerAcc) (e : InputElem) : SerAcc :=
  match e.name with
  | none => acc
  | some name =>
    match e.typ with
    | none => acc
    | some typ =>
      if typ == "submit" then
        match e.value with
        | some val => { acc with buttons := Values.Add acc.buttons name val }
        | none => { acc with buttons := Values.Add acc.buttons name "" }
      else if typ == "radio" || typ == "checkbox" then
        let d := insertName acc.definedFields name
        if e.checked.isSome then
          match e.value with
          | some val =>
            { acc with definedFields := d, fields := Values.Add acc.fields name val }
          | none => { acc with definedFields := d }
        else { acc with definedFields := d }
      else
        let d := insertName acc.definedFields name
        match e.value with
        | some val =>
          { acc with definedFields := d, fields := Values.Add acc.fields name val }
        | none => { acc with definedFields := d }

/-- One step of the `select` loop of `serializeForm` (form.go:222-234):
mark the name defined, then add the value of each selected option that has
one, in document order. -/
def serSelect (acc : SerAcc) (s : SelectElem) : SerAcc :=
  match s.name with
  | none => acc
  | some name =>
    { acc with
      definedFields := insertName acc.definedFields name,
      fields :=
        (s.options.filter (·.selected)).foldl
          (fun fl o =>
            match o.value with
            | some v => Values.Add fl name v
            | none => fl)
          acc.fields }

/-- One step of the `textarea` loop of `serializeForm` (form.go:237-244):
mark the name defined and add the text content unconditionally. -/
def serTextarea (acc : SerAcc) (t : TextareaElem) : SerAcc :=
  match t.name with
  | none => acc
  | some name =>
    { acc with
      definedFields := insertName acc.definedFields name,
      fields := Values.Add acc.fields name t.text }

/-- `serializeForm` (form.go:182-247): the `input,button` pass, then the
`select` pass, then the `textarea` pass. -/
def serializeForm (doc : FormDoc) : SerAcc :=
  let a1 := doc.inputs.foldl serInput ⟨[], [], []⟩
  let a2 := doc.selects.foldl serSelect a1
  doc.textareas.foldl serTextarea a2

/-- The two error kinds of the form layer, each carrying the offending
name: `errors.NewElementNotFound("No input found with name '%s'.", name)`
and `errors.NewInvalidFormValue("Form does not contain a button with the
name '%s'.", button)`. -/
inductive FormError where
  | elementNotFound (name : String)
  | invalidFormValue (name : String)
deriving DecidableEq, Repr

/-- The `Form` struct: the DOM data, the `action` field (set by `NewForm`
and `SetAction`; its URL resolution is out of scope), and the three maps
from `serializeForm`. -/
structure Form where
  doc : FormDoc
  action : String
  definedFields : List String
  fields : Values
  buttons : Values
deriving DecidableEq, Repr

/-- `NewForm` (form.go:38-51): runs `serializeForm` on the selection.
(The resolved `action` string is kept abstract as the raw attribute or
empty; no claim depends on it.) -/
def NewForm (doc : FormDoc) : Form :=
  let acc := serializeForm doc
  { doc := doc
    action := (doc.actionAttr).getD ""
    definedFields := acc.definedFields
    fields := acc.fields
    buttons := acc.buttons }

/-- `Form.Field` (form.go:71-76). -/
def Form.field (f : Form) (name : String) : String × Bool :=
  if f.definedFields.contains name then (Values.Get f.fields name, true)
  else ("", false)

/-- `Form.Input` (form.go:79-86). -/
def Form.input (f : Form) (name value : String) : Except FormError Form :=
  if f.definedFields.contains name then
    .ok { f with fields := Values.Set f.fields name value }
  else .error (.elementNotFound name)

/-- `Form.DeleteField` (form.go:89-96). -/
def Form.deleteField (f : Form) (name : String) : Except FormError Form :=
  if f.definedFields.contains name then
    .ok { f with fields := Values.Del f.fields name }
  else .error (.elementNotFound name)

/-- `Form.InputSlice` (form.go:99-109): delete the key, then `Add` each
given value in order. -/
def Form.inputSlice (f : Form) (name : String) (values : List String) :
    Except FormError Form :=
  if f.definedFields.contains name then
    .ok { f with
          fields := values.foldl (fun fl v => Values.Add fl name v)
            (Values.Del f.fields name) }
  else .error (.elementNotFound name)

/-- `Form.CheckBox` (form.go:112-114): an alias for `InputSlice`. -/
def Form.checkBox (f : Form) (name : String) (values : List String) :
    Except FormError Form :=
  f.inputSlice name values

/-- The dispatched submission: which `Browsable` operation is invoked
(`OpenForm` = query-string GET, `PostMultipart`, `PostForm` = url-encoded
POST) and with which values.  The target URL is out of scope. -/
inductive Request where
  | openForm (values : Values)
  | postMultipart (values : Values)
  | postForm (values : Values)
deriving DecidableEq, Repr

/-- The values carried by a dispatched request. -/
def Request.values : Request → Values
  | .openForm vs => vs
  | .postMultipart vs => vs
  | .postForm vs => vs

/-- Which of the three transport operations a request uses. -/
inductive ReqKind where
  | openForm
  | postMultipart
  | postForm
deriving DecidableEq, Repr

/-- The kind of a dispatched request. -/
def Request.kind : Request → ReqKind
  | .openForm _ => .openForm
  | .postMultipart _ => .postMultipart
  | .postForm _ => .postForm

/-- `strings.ToUpper`, character by character (ASCII-faithful). -/
def toUpper (s : String) : String :=
  ⟨s.data.map Char.toUpper⟩

/-- `Form.send` (form.go:143-177): re-reads `method` from the DOM
(default `"GET"`), copies the fields, merges the button pair only when
`buttonName != ""`, and dispatches on `ToUpper(method)` and the raw
`enctype` attribute (absent = `""`).  URL parsing/resolution is elided;
no claim concerns it. -/
def Form.send (f : Form) (buttonName buttonValue : String) : Request :=
  let method := (f.doc.methodAttr).getD "GET"
  let values :=
    if buttonName != "" then Values.Set f.fields buttonName buttonValue
    else f.fields
  if toUpper method == "GET" then .openForm values
  else
    let enctype := (f.doc.enctypeAttr).getD ""
    if enctype == "multipart/form-data" then .postMultipart values
    else .postForm values

/-- `Form.Click` (form.go:129-135): requires the button key to exist, then
sends with the first recorded value (`f.buttons[button][0]`; on every
state built by `serializeForm` the slice is non-empty, `headD ""` is the
total rendering of the index). -/
def Form.click (f : Form) (button : String) : Except FormError Request :=
  if Values.hasKey f.buttons button then
    .ok (f.send button ((Values.lookup f.buttons button).headD ""))
  else .error (.invalidFormValue button)

/-- `Form.Submit` (form.go:119-126): click some button when one exists
(Go map iteration order is unspecified; the model takes the first stored
button), otherwise send with no button pair. -/
def Form.submit (f : Form) : Except FormError Request :=
  match f.buttons with
  | [] => .ok (f.send "" "")
  | (name, _) :: _ => f.click name

/-- The four field-mutating operations, for stating invariants over
arbitrary call sequences. -/
inductive FieldOp where
  | input (name value : String)
  | inputSlice (name : String) (values : List String)
  | checkBox (name : String) (values : List String)
  | deleteField (name : String)
deriving DecidableEq, Repr

/-- Applying one operation: the new form on success, the unchanged form on
error (the Go methods mutate nothing on the error path). -/
def Form.applyOp (f : Form) (op : FieldOp) : Form :=
  let r : Except FormError Form :=
    match op with
    | .input n v => f.input n v
    | .inputSlice n vs => f.inputSlice n vs
    | .checkBox n vs => f.checkBox n vs
    | .deleteField n => f.deleteField n
  match r with
  | .ok f' => f'
  | .error _ => f

/-- Applying a sequence of operations in order. -/
def Form.applyOps (f : Form) (ops : List FieldOp) : Form :=
  ops.foldl Form.applyOp f

/-! ### Basic lemmas about the `Values` operations -/

theorem Values.lookup_Add (m : Values) (k v n : String) :
    Values.lookup (Values.Add m k v) n =
      (if n = k then Values.lookup m n ++ [v] else Values.lookup m n) := by
  induction m with
  | nil =>
    by_cases h : n = k
    · simp [Values.Add, Values.lookup, h]
    · have h' : ¬ k = n := fun hc => h hc.symm
      simp [Values.Add, Values.lookup, h, h']
  | cons p rest ih =>
    obtain ⟨k', vs⟩ := p
    by_cases h1 : k' = k
    · by_cases h2 : k' = n
      · have h3 : n = k := h2.symm.trans h1
        simp [Values.Add, Values.lookup, h1, h2, h3]
      · have h3 : ¬ n = k := fun hc => h2 ((h1.trans hc.symm))
        have h4 : ¬ k = n := fun hc => h3 hc.symm
        simp [Values.Add, Values.lookup, h1, h2, h3, h4]
    · by_cases h2 : k' = n
      · have h3 : ¬ n = k := fun hc => h1 (h2.trans hc)
        simp [Values.Add, Values.lookup, h1, h2, h3]
      · simp [Values.Add, Values.lookup, h1, h2, ih]

theorem Values.lookup_Set (m : Values) (k v n : String) :
    Values.lookup (Values.Set m k v) n =
      (if n = k then [v] else Values.lookup m n) := by
  induction m with
  | nil =>
    by_cases h : n = k
    · simp [Values.Set, Values.lookup, h]
    · have h' : ¬ k = n := fun hc => h hc.symm
      simp [Values.Set, Values.lookup, h, h']
  | cons p rest ih =>
    obtain ⟨k', vs⟩ := p
    by_cases h1 : k' = k
    · by_cases h2 : k' = n
      · have h3 : n = k := h2.symm.trans h1
        simp [Values.Set, Values.lookup, h1, h2, h3]
      · have h3 : ¬ n = k := fun hc => h2 ((h1.trans hc.symm))
        have h4 : ¬ k = n := fun hc => h3 hc.symm
        simp [Values.Set, Values.lookup, h1, h2, h3, h4]
    · by_cases h2 : k' = n
      · have h3 : ¬ n = k := fun hc => h1 (h2.trans hc)
        simp [Values.Set, Values.lookup, h1, h2, h3]
      · simp [Values.Set, Values.lookup, h1, h2, ih]

theorem Values.lookup_Del (m : Values) (k n : String) :
    Values.lookup (Values.Del m k) n =
      (if n = k then [] else Values.lookup m n) := by
  induction m with
  | nil => simp [Values.Del, Values.lookup]
  | cons p rest ih =>
    obtain ⟨k', vs⟩ := p
    by_cases h1 : k' = k
    · by_cases h2 : n = k
      · have h4 : (Values.Del rest k).lookup k = [] := by
          have h5 := ih
          rw [h2] at h5
          simpa using h5
        simp [Values.Del, h1, h2, h4]
      · have h3 : ¬ k' = n := fun hc => h2 (hc.symm.trans h1)
        have h4 : ¬ k = n := fun hc => h2 hc.symm
        simp [Values.Del, Values.lookup, h1, h2, h3, h4, ih]
    · by_cases h2 : k' = n
      · have h3 : ¬ n = k := fun hc => h1 (h2.trans hc)
        simp [Values.Del, Values.lookup, h1, h2, h3]
      · simp [Values.Del, Values.lookup, h1, h2, ih]

theorem Values.lookup_foldl_Add (vs : List String) (m : Values) (k n : String) :
    Values.lookup (vs.foldl (fun fl v => Values.Add fl k v) m) n =
      (if n = k then Values.lookup m n ++ vs else Values.lookup m n) := by
  induction vs generalizing m with
  | nil => split <;> simp
  | cons v rest ih =>
    simp only [List.foldl_cons]
    rw [ih, Values.lookup_Add]
    split <;> simp

/-- A key of `Values.Add m k v` is `k` or a key of `m`. -/
theorem Values.keys_Add (m : Values) (k v : String) (p : String × List String)
    (hp : p ∈ Values.Add m k v) : p.1 = k ∨ ∃ q ∈ m, q.1 = p.1 := by
  induction m with
  | nil =>
    simp only [Values.Add, List.mem_singleton] at hp
    subst hp
    exact Or.inl rfl
  | cons q rest ih =>
    obtain ⟨k', vs⟩ := q
    simp only [Values.Add] at hp
    split at hp <;> rename_i h
    · rcases List.mem_cons.mp hp with h1 | h1
      · subst h1
        right
        exact ⟨(k', vs), List.mem_cons_self _ _, rfl⟩
      · right
        exact ⟨p, List.mem_cons_of_mem _ h1, rfl⟩
    · rcases List.mem_cons.mp hp with h1 | h1
      · subst h1
        right
        exact ⟨(k', vs), List.mem_cons_self _ _, rfl⟩
      · rcases ih h1 with h2 | ⟨q, hq, hq1⟩
        · exact Or.inl h2
        · exact Or.inr ⟨q, List.mem_cons_of_mem _ hq, hq1⟩

/-- A key of `Values.Set m k v` is `k` or a key of `m`. -/
theorem Values.keys_Set (m : Values) (k v : String) (p : String × List String)
    (hp : p ∈ Values.Set m k v) : p.1 = k ∨ ∃ q ∈ m, q.1 = p.1 := by
  induction m with
  | nil =>
    simp only [Values.Set, List.mem_singleton] at hp
    subst hp
    exact Or.inl rfl
  | cons q rest ih =>
    obtain ⟨k', vs⟩ := q
    simp only [Values.Set] at hp
    split at hp <;> rename_i h
    · rcases List.mem_cons.mp hp with h1 | h1
      · subst h1
        replace h : k' = k := by simpa using h
        exact Or.inl h
      · right
        exact ⟨p, List.mem_cons_of_mem _ h1, rfl⟩
    · rcases List.mem_cons.mp hp with h1 | h1
      · subst h1
        right
        exact ⟨(k', vs), List.mem_cons_self _ _, rfl⟩
      · rcases ih h1 with h2 | ⟨q, hq, hq1⟩
        · exact Or.inl h2
        · exact Or.inr ⟨q, List.mem_cons_of_mem _ hq, hq1⟩

/-- Every entry of `Values.Del m k` is an entry of `m`. -/
theorem Values.mem_Del (m : Values) (k : String) (p : String × List String)
    (hp : p ∈ Values.Del m k) : p ∈ m := by
  induction m with
  | nil => simp [Values.Del] at hp
  | cons q rest ih =>
    obtain ⟨k', vs⟩ := q
    simp only [Values.Del] at hp
    split at hp <;> rename_i h
    · exact List.mem_cons_of_mem _ (ih hp)
    · rcases List.mem_cons.mp hp with h1 | h1
      · exact h1 ▸ List.mem_cons_self _ _
      · exact List.mem_cons_of_mem _ (ih h1)

/-! ### Basic lemmas about `insertName` -/

theorem contains_insertName (d : List String) (n m : String) :
    (insertName d n).contains m = (d.contains m || m == n) := by
  unfold insertName
  by_cases hd : d.contains n = true
  · rw [if_pos hd]
    by_cases hmn : m = n
    · have h2 : d.contains m = true := hmn ▸ hd
      rw [h2, Bool.true_or]
    · have hb : (m == n) = false := by simpa using hmn
      rw [hb, Bool.or_false]
  · rw [if_neg hd]
    by_cases hmn : m = n
    · have hb : (m == n) = true := by simpa using hmn
      rw [hb, Bool.or_true]
      exact List.elem_iff.mpr (List.mem_append.mpr (Or.inr (by simp [hmn])))
    · have hb : (m == n) = false := by simpa using hmn
      rw [hb, Bool.or_false]
      cases hdm : d.contains m with
      | true => exact List.elem_iff.mpr (List.mem_append.mpr (Or.inl (List.elem_iff.mp hdm)))
      | false =>
        apply Bool.eq_false_iff.mpr
        intro hc
        rcases List.mem_append.mp (List.elem_iff.mp hc) with h | h
        · have h6 : d.contains m = true := List.elem_iff.mpr h
          rw [hdm] at h6
          cases h6
        · exact hmn (by simpa using h)

theorem contains_insertName_mono (d : List String) (n m : String)
    (h : d.contains m = true) : (insertName d n).contains m = true := by
  rw [contains_insertName, h, Bool.true_or]

theorem contains_insertName_self (d : List String) (n : String) :
    (insertName d n).contains n = true := by
  rw [contains_insertName]
  simp

theorem mem_insertName (d : List String) (nm n : String) :
    n ∈ insertName d nm ↔ (n ∈ d ∨ n = nm) := by
  unfold insertName
  by_cases hc : nm ∈ d
  · have h : d.contains nm = true := List.elem_iff.mpr hc
    rw [if_pos h]
    constructor
    · exact Or.inl
    · rintro (h1 | h1)
      · exact h1
      · exact h1 ▸ hc
  · have h : ¬ d.contains nm = true := fun hcc => hc (List.elem_iff.mp hcc)
    rw [if_neg h]
    simp [List.mem_append]

/-! ### Per-element contributions of `serializeForm`

For each extraction rule, the values an element contributes to the field
(resp. button) list of a given name, so that the final `FieldSet` and
`ButtonSet` lists can be characterised as the document-order concatenation
of these contributions. -/

/-- Concatenation of per-element contributions in document order. -/
def contribs {α : Type} (f : α → List String) : List α → List String
  | [] => []
  | e :: es => f e ++ contribs f es

/-- What an `input`/`button` element contributes to `FieldSet[n]`. -/
def fieldContrib (n : String) (e : InputElem) : List String :=
  match e.name, e.typ with
  | some name, some typ =>
    if typ == "submit" then []
    else if typ == "radio" || typ == "checkbox" then
      if e.checked.isSome then
        match e.value with
        | some v => if name == n then [v] else []
        | none => []
      else []
    else
      match e.value with
      | some v => if name == n then [v] else []
      | none => []
  | _, _ => []

/-- What an `input`/`button` element contributes to `ButtonSet[n]`. -/
def buttonContrib (n : String) (e : InputElem) : List String :=
  match e.name, e.typ with
  | some name, some typ =>
    if typ == "submit" then
      if name == n then [e.value.getD ""] else []
    else []
  | _, _ => []

/-- Whether an `input`/`button` element marks `n` in DefinedFields. -/
def definesInput (n : String) (e : InputElem) : Bool :=
  match e.name, e.typ with
  | some name, some typ => name == n && !(typ == "submit")
  | _, _ => false

/-- What a `select` element contributes to `FieldSet[n]`. -/
def selectContrib (n : String) (s : SelectElem) : List String :=
  match s.name with
  | some name =>
    if name == n then (s.options.filter (·.selected)).filterMap (·.value)
    else []
  | none => []

/-- Whether a `select` element marks `n` in DefinedFields. -/
def definesSelect (n : String) (s : SelectElem) : Bool :=
  match s.name with
  | some name => name == n
  | none => false

/-- What a `textarea` element contributes to `FieldSet[n]`. -/
def textContrib (n : String) (t : TextareaElem) : List String :=
  match t.name with
  | some name => if name == n then [t.text] else []
  | none => []

/-- Whether a `textarea` element marks `n` in DefinedFields. -/
def definesTextarea (n : String) (t : TextareaElem) : Bool :=
  match t.name with
  | some name => name == n
  | none => false

theorem serInput_fields (acc : SerAcc) (e : InputElem) (n : String) :
    Values.lookup (serInput acc e).fields n =
      Values.lookup acc.fields n ++ fieldContrib n e := by
  obtain ⟨tag, name, typ, value, checked⟩ := e
  cases name with
  | none => simp [serInput, fieldContrib]
  | some nm =>
    cases typ with
    | none => simp [serInput, fieldContrib]
    | some t =>
      by_cases ht : t = "submit"
      · cases value <;> simp [serInput, fieldContrib, ht]
      · by_cases ht2 : (t = "radio" ∨ t = "checkbox")
        · have hb2 : (t == "radio" || t == "checkbox") = true := by
            rcases ht2 with h | h <;> simp [h]
          cases checked with
          | none => cases value <;>
              simp [serInput, fieldContrib, ht, hb2]
          | some c =>
            cases value with
            | none => simp [serInput, fieldContrib, ht, hb2]
            | some v =>
              by_cases hn : nm = n
              · simp [serInput, fieldContrib, ht, hb2, hn,
                  Values.lookup_Add]
              · have hn' : ¬ n = nm := fun hc => hn hc.symm
                simp [serInput, fieldContrib, ht, hb2, hn, hn',
                  Values.lookup_Add]
        · have hb2 : (t == "radio" || t == "checkbox") = false := by
            push_neg at ht2
            simp [ht2.1, ht2.2]
          cases value with
          | none => simp [serInput, fieldContrib, ht, hb2]
          | some v =>
            by_cases hn : nm = n
            · simp [serInput, fieldContrib, ht, hb2, hn,
                Values.lookup_Add]
            · have hn' : ¬ n = nm := fun hc => hn hc.symm
              simp [serInput, fieldContrib, ht, hb2, hn, hn',
                Values.lookup_Add]

theorem serInput_buttons (acc : SerAcc) (e : InputElem) (n : String) :
    Values.lookup (serInput acc e).buttons n =
      Values.lookup acc.buttons n ++ buttonContrib n e := by
  obtain ⟨tag, name, typ, value, checked⟩ := e
  cases name with
  | none => simp [serInput, buttonContrib]
  | some nm =>
    cases typ with
    | none => simp [serInput, buttonContrib]
    | some t =>
      by_cases ht : t = "submit"
      · by_cases hn : nm = n
        · cases value <;>
            simp [serInput, buttonContrib, ht, hn, Values.lookup_Add]
        · have hn' : ¬ n = nm := fun hc => hn hc.symm
          cases value <;>
            simp [serInput, buttonContrib, ht, hn, hn', Values.lookup_Add]
      · by_cases ht2 : (t = "radio" ∨ t = "checkbox")
        · have hb2 : (t == "radio" || t == "checkbox") = true := by
            rcases ht2 with h | h <;> simp [h]
          cases checked <;> cases value <;>
            simp [serInput, buttonContrib, ht, hb2]
        · have hb2 : (t == "radio" || t == "checkbox") = false := by
            push_neg at ht2
            simp [ht2.1, ht2.2]
          cases value <;> simp [serInput, buttonContrib, ht, hb2]

theorem serInput_defined (acc : SerAcc) (e : InputElem) (n : String) :
    (serInput acc e).definedFields.contains n =
      (acc.definedFields.contains n || definesInput n e) := by
  obtain ⟨tag, name, typ, value, checked⟩ := e
  cases name with
  | none => simp [serInput, definesInput]
  | some nm =>
    cases typ with
    | none => simp [serInput, definesInput]
    | some t =>
      by_cases ht : t = "submit"
      · cases value <;> simp [serInput, definesInput, ht]
      · have hts : (t == "submit") = false := by simpa using ht
        by_cases hn : n = nm
        · have hn2 : (nm == n) = true := by simpa using hn.symm
          by_cases ht2 : (t = "radio" ∨ t = "checkbox")
          · have hb2 : (t == "radio" || t == "checkbox") = true := by
              rcases ht2 with h | h <;> simp [h]
            cases checked <;> cases value <;>
              simp [serInput, definesInput, ht, hts, hb2, hn, hn2, mem_insertName]
          · have hb2 : (t == "radio" || t == "checkbox") = false := by
              push_neg at ht2
              simp [ht2.1, ht2.2]
            cases value <;>
              simp [serInput, definesInput, ht, hts, hb2, hn, hn2, mem_insertName]
        · have hn2 : (nm == n) = false := by
            have h' : ¬ nm = n := fun hc => hn hc.symm
            simpa using h'
          by_cases ht2 : (t = "radio" ∨ t = "checkbox")
          · have hb2 : (t == "radio" || t == "checkbox") = true := by
              rcases ht2 with h | h <;> simp [h]
            cases checked <;> cases value <;>
              simp [serInput, definesInput, ht, hts, hb2, hn, hn2, mem_insertName]
          · have hb2 : (t == "radio" || t == "checkbox") = false := by
              push_neg at ht2
              simp [ht2.1, ht2.2]
            cases value <;>
              simp [serInput, definesInput, ht, hts, hb2, hn, hn2, mem_insertName]

theorem lookup_foldl_optAdd (os : List OptionElem) (m : Values) (k n : String) :
    Values.lookup
        (os.foldl
          (fun fl o =>
            match o.value with
            | some v => Values.Add fl k v
            | none => fl)
          m)
        n =
      (if n = k then Values.lookup m n ++ os.filterMap (·.value)
       else Values.lookup m n) := by
  induction os generalizing m with
  | nil => split <;> simp
  | cons o os ih =>
    obtain ⟨sel, value⟩ := o
    cases value with
    | none =>
      simp only [List.foldl_cons]
      rw [ih]
      split <;> simp [List.filterMap_cons]
    | some v =>
      simp only [List.foldl_cons]
      rw [ih, Values.lookup_Add]
      split <;> simp [List.filterMap_cons]

theorem serSelect_fields (acc : SerAcc) (s : SelectElem) (n : String) :
    Values.lookup (serSelect acc s).fields n =
      Values.lookup acc.fields n ++ selectContrib n s := by
  obtain ⟨name, options⟩ := s
  cases name with
  | none => simp [serSelect, selectContrib]
  | some nm =>
    by_cases hn : nm = n
    · simp [serSelect, selectContrib, hn, lookup_foldl_optAdd]
    · have hn' : ¬ n = nm := fun hc => hn hc.symm
      simp [serSelect, selectContrib, hn, hn', lookup_foldl_optAdd]

theorem serSelect_buttons (acc : SerAcc) (s : SelectElem) :
    (serSelect acc s).buttons = acc.buttons := by
  obtain ⟨name, options⟩ := s
  cases name <;> rfl

theorem serSelect_defined (acc : SerAcc) (s : SelectElem) (n : String) :
    (serSelect acc s).definedFields.contains n =
      (acc.definedFields.contains n || definesSelect n s) := by
  obtain ⟨name, options⟩ := s
  cases name with
  | none => simp [serSelect, definesSelect]
  | some nm =>
    by_cases hn : n = nm
    · have hn2 : (nm == n) = true := by simpa using hn.symm
      simp [serSelect, definesSelect, hn, hn2, mem_insertName]
    · have hn2 : (nm == n) = false := by
        have h' : ¬ nm = n := fun hc => hn hc.symm
        simpa using h'
      simp [serSelect, definesSelect, hn, hn2, mem_insertName]

theorem serTextarea_fields (acc : SerAcc) (t : TextareaElem) (n : String) :
    Values.lookup (serTextarea acc t).fields n =
      Values.lookup acc.fields n ++ textContrib n t := by
  obtain ⟨name, text⟩ := t
  cases name with
  | none => simp [serTextarea, textContrib]
  | some nm =>
    by_cases hn : nm = n
    · simp [serTextarea, textContrib, hn, Values.lookup_Add]
    · have hn' : ¬ n = nm := fun hc => hn hc.symm
      simp [serTextarea, textContrib, hn, hn', Values.lookup_Add]

theorem serTextarea_buttons (acc : SerAcc) (t : TextareaElem) :
    (serTextarea acc t).buttons = acc.buttons := by
  obtain ⟨name, text⟩ := t
  cases name <;> rfl

theorem serTextarea_defined (acc : SerAcc) (t : TextareaElem) (n : String) :
    (serTextarea acc t).definedFields.contains n =
      (acc.definedFields.contains n || definesTextarea n t) := by
  obtain ⟨name, text⟩ := t
  cases name with
  | none => simp [serTextarea, definesTextarea]
  | some nm =>
    by_cases hn : n = nm
    · have hn2 : (nm == n) = true := by simpa using hn.symm
      simp [serTextarea, definesTextarea, hn, hn2, mem_insertName]
    · have hn2 : (nm == n) = false := by
        have h' : ¬ nm = n := fun hc => hn hc.symm
        simpa using h'
      simp [serTextarea, definesTextarea, hn, hn2, mem_insertName]

theorem foldl_serInput_fields (es : List InputElem) (acc : SerAcc) (n : String) :
    Values.lookup (es.foldl serInput acc).fields n =
      Values.lookup acc.fields n ++ contribs (fieldContrib n) es := by
  induction es generalizing acc with
  | nil => simp [contribs]
  | cons e es ih =>
    simp only [List.foldl_cons]
    rw [ih, serInput_fields, contribs, List.append_assoc]

theorem foldl_serInput_buttons (es : List InputElem) (acc : SerAcc) (n : String) :
    Values.lookup (es.foldl serInput acc).buttons n =
      Values.lookup acc.buttons n ++ contribs (buttonContrib n) es := by
  induction es generalizing acc with
  | nil => simp [contribs]
  | cons e es ih =>
    simp only [List.foldl_cons]
    rw [ih, serInput_buttons, contribs, List.append_assoc]

theorem foldl_serInput_defined (es : List InputElem) (acc : SerAcc) (n : String) :
    (es.foldl serInput acc).definedFields.contains n =
      (acc.definedFields.contains n || es.any (definesInput n)) := by
  induction es generalizing acc with
  | nil => simp
  | cons e es ih =>
    simp only [List.foldl_cons]
    rw [ih, serInput_defined, List.any_cons, Bool.or_assoc]

theorem foldl_serSelect_fields (ss : List SelectElem) (acc : SerAcc) (n : String) :
    Values.lookup (ss.foldl serSelect acc).fields n =
      Values.lookup acc.fields n ++ contribs (selectContrib n) ss := by
  induction ss generalizing acc with
  | nil => simp [contribs]
  | cons s ss ih =>
    simp only [List.foldl_cons]
    rw [ih, serSelect_fields, contribs, List.append_assoc]

theorem foldl_serSelect_buttons (ss : List SelectElem) (acc : SerAcc) :
    (ss.foldl serSelect acc).buttons = acc.buttons := by
  induction ss generalizing acc with
  | nil => rfl
  | cons s ss ih =>
    simp only [List.foldl_cons]
    rw [ih, serSelect_buttons]

theorem foldl_serSelect_defined (ss : List SelectElem) (acc : SerAcc) (n : String) :
    (ss.foldl serSelect acc).definedFields.contains n =
      (acc.definedFields.contains n || ss.any (definesSelect n)) := by
  induction ss generalizing acc with
  | nil => simp
  | cons s ss ih =>
    simp only [List.foldl_cons]
    rw [ih, serSelect_defined, List.any_cons, Bool.or_assoc]

theorem foldl_serTextarea_fields (ts : List TextareaElem) (acc : SerAcc) (n : String) :
    Values.lookup (ts.foldl serTextarea acc).fields n =
      Values.lookup acc.fields n ++ contribs (textContrib n) ts := by
  induction ts generalizing acc with
  | nil => simp [contribs]
  | cons t ts ih =>
    simp only [List.foldl_cons]
    rw [ih, serTextarea_fields, contribs, List.append_assoc]

theorem foldl_serTextarea_buttons (ts : List TextareaElem) (acc : SerAcc) :
    (ts.foldl serTextarea acc).buttons = acc.buttons := by
  induction ts generalizing acc with
  | nil => rfl
  | cons t ts ih =>
    simp only [List.foldl_cons]
    rw [ih, serTextarea_buttons]

theorem foldl_serTextarea_defined (ts : List TextareaElem) (acc : SerAcc) (n : String) :
    (ts.foldl serTextarea acc).definedFields.contains n =
      (acc.definedFields.contains n || ts.any (definesTextarea n)) := by
  induction ts generalizing acc with
  | nil => simp
  | cons t ts ih =>
    simp only [List.foldl_cons]
    rw [ih, serTextarea_defined, List.any_cons, Bool.or_assoc]

/-- `FieldSet[n]` after extraction is the document-order concatenation of
the contributions of the `input`/`button`, `select` and `textarea`
passes. -/
theorem serializeForm_fields (doc : FormDoc) (n : String) :
    Values.lookup (serializeForm doc).fields n =
      contribs (fieldContrib n) doc.inputs ++
        contribs (selectContrib n) doc.selects ++
        contribs (textContrib n) doc.textareas := by
  unfold serializeForm
  rw [foldl_serTextarea_fields, foldl_serSelect_fields, foldl_serInput_fields]
  simp [Values.lookup]

/-- `ButtonSet[n]` after extraction is the document-order concatenation of
the submit-control contributions of the `input`/`button` pass. -/
theorem serializeForm_buttons (doc : FormDoc) (n : String) :
    Values.lookup (serializeForm doc).buttons n =
      contribs (buttonContrib n) doc.inputs := by
  unfold serializeForm
  rw [foldl_serTextarea_buttons, foldl_serSelect_buttons, foldl_serInput_buttons]
  simp [Values.lookup]

/-- A name is in DefinedFields after extraction exactly when some element
of one of the three passes marks it. -/
theorem serializeForm_defined (doc : FormDoc) (n : String) :
    (serializeForm doc).definedFields.contains n =
      (doc.inputs.any (definesInput n) || doc.selects.any (definesSelect n) ||
        doc.textareas.any (definesTextarea n)) := by
  unfold serializeForm
  rw [foldl_serTextarea_defined, foldl_serSelect_defined, foldl_serInput_defined]
  simp [Bool.or_assoc]

/-! ### The FieldSet-keys-are-defined invariant -/

/-- Every key of `m` that also gains the freshly inserted name is in the
grown name set. -/
theorem inv_Add_insert (d : List String) (m : Values) (nm v : String)
    (h : ∀ p ∈ m, d.contains p.1 = true) :
    ∀ p ∈ Values.Add m nm v, (insertName d nm).contains p.1 = true := by
  intro p hp
  rcases Values.keys_Add m nm v p hp with h1 | ⟨q, hq, hq1⟩
  · rw [h1]
    exact contains_insertName_self d nm
  · exact contains_insertName_mono _ _ _ (hq1 ▸ h q hq)

theorem inv_insert (d : List String) (m : Values) (nm : String)
    (h : ∀ p ∈ m, d.contains p.1 = true) :
    ∀ p ∈ m, (insertName d nm).contains p.1 = true :=
  fun p hp => contains_insertName_mono _ _ _ (h p hp)

theorem Values.keys_foldl_Add (vs : List String) (m : Values) (k : String)
    (p : String × List String)
    (hp : p ∈ vs.foldl (fun fl v => Values.Add fl k v) m) :
    p.1 = k ∨ ∃ q ∈ m, q.1 = p.1 := by
  induction vs generalizing m with
  | nil => exact Or.inr ⟨p, hp, rfl⟩
  | cons v vs ih =>
    simp only [List.foldl_cons] at hp
    rcases ih (Values.Add m k v) hp with h1 | ⟨q, hq, hq1⟩
    · exact Or.inl h1
    · rcases Values.keys_Add m k v q hq with h2 | ⟨r, hr, hr1⟩
      · exact Or.inl (hq1 ▸ h2)
      · exact Or.inr ⟨r, hr, hr1.trans hq1⟩

theorem keys_foldl_optAdd (os : List OptionElem) (m : Values) (k : String)
    (p : String × List String)
    (hp : p ∈ os.foldl
      (fun fl o =>
        match o.value with
        | some v => Values.Add fl k v
        | none => fl)
      m) :
    p.1 = k ∨ ∃ q ∈ m, q.1 = p.1 := by
  induction os generalizing m with
  | nil => exact Or.inr ⟨p, hp, rfl⟩
  | cons o os ih =>
    obtain ⟨sel, value⟩ := o
    cases value with
    | none => exact ih m hp
    | some v =>
      simp only [List.foldl_cons] at hp
      rcases ih (Values.Add m k v) hp with h1 | ⟨q, hq, hq1⟩
      · exact Or.inl h1
      · rcases Values.keys_Add m k v q hq with h2 | ⟨r, hr, hr1⟩
        · exact Or.inl (hq1 ▸ h2)
        · exact Or.inr ⟨r, hr, hr1.trans hq1⟩

/-- The extraction invariant: every key of the field map is a defined
name. -/
def AccInv (acc : SerAcc) : Prop :=
  ∀ p ∈ acc.fields, acc.definedFields.contains p.1 = true

theorem accInv_serInput (acc : SerAcc) (e : InputElem) (h : AccInv acc) :
    AccInv (serInput acc e) := by
  obtain ⟨tag, name, typ, value, checked⟩ := e
  cases name with
  | none => exact h
  | some nm =>
    cases typ with
    | some t =>
      by_cases ht : t = "submit"
      · have hts : (t == "submit") = true := by simpa using ht
        cases value <;> simp only [serInput, hts, if_true] <;> exact h
      · have hts : (t == "submit") = false := by simpa using ht
        by_cases ht2 : (t = "radio" ∨ t = "checkbox")
        · have hb2 : (t == "radio" || t == "checkbox") = true := by
            rcases ht2 with h1 | h1 <;> simp [h1]
          cases checked with
          | none =>
            cases value <;>
              simp only [serInput, hts, hb2, Bool.false_eq_true, if_false,
                if_true, Option.isSome_none] <;>
              exact inv_insert _ _ _ h
          | some c =>
            cases value with
            | none =>
              simp only [serInput, hts, hb2, Bool.false_eq_true, if_false,
                if_true, Option.isSome_some]
              exact inv_insert _ _ _ h
            | some v =>
              simp only [serInput, hts, hb2, Bool.false_eq_true, if_false,
                if_true, Option.isSome_some]
              exact inv_Add_insert _ _ _ _ h
        · have hb2 : (t == "radio" || t == "checkbox") = false := by
            push_neg at ht2
            simp [ht2.1, ht2.2]
          cases value with
          | none =>
            simp only [serInput, hts, hb2, Bool.false_eq_true, if_false]
            exact inv_insert _ _ _ h
          | some v =>
            simp only [serInput, hts, hb2, Bool.false_eq_true, if_false]
            exact inv_Add_insert _ _ _ _ h
    | none => exact h

theorem accInv_serSelect (acc : SerAcc) (s : SelectElem) (h : AccInv acc) :
    AccInv (serSelect acc s) := by
  obtain ⟨name, options⟩ := s
  cases name with
  | none => exact h
  | some nm =>
    intro p hp
    simp only [serSelect] at hp ⊢
    rcases keys_foldl_optAdd _ _ _ p hp with h1 | ⟨q, hq, hq1⟩
    · rw [h1]
      exact contains_insertName_self _ nm
    · exact contains_insertName_mono _ _ _ (hq1 ▸ h q hq)

theorem accInv_serTextarea (acc : SerAcc) (t : TextareaElem) (h : AccInv acc) :
    AccInv (serTextarea acc t) := by
  obtain ⟨name, text⟩ := t
  cases name with
  | none => exact h
  | some nm =>
    simp only [serTextarea]
    exact inv_Add_insert _ _ _ _ h

theorem accInv_serializeForm (doc : FormDoc) : AccInv (serializeForm doc) := by
  unfold serializeForm
  have h0 : AccInv ⟨[], [], []⟩ := by
    intro p hp
    cases hp
  have h1 : ∀ (es : List InputElem) (acc : SerAcc),
      AccInv acc → AccInv (es.foldl serInput acc) := by
    intro es
    induction es with
    | nil => exact fun acc h => h
    | cons e es ih =>
      intro acc h
      exact ih _ (accInv_serInput acc e h)
  have h2 : ∀ (ss : List SelectElem) (acc : SerAcc),
      AccInv acc → AccInv (ss.foldl serSelect acc) := by
    intro ss
    induction ss with
    | nil => exact fun acc h => h
    | cons s ss ih =>
      intro acc h
      exact ih _ (accInv_serSelect acc s h)
  have h3 : ∀ (ts : List TextareaElem) (acc : SerAcc),
      AccInv acc → AccInv (ts.foldl serTextarea acc) := by
    intro ts
    induction ts with
    | nil => exact fun acc h => h
    | cons t ts ih =>
      intro acc h
      exact ih _ (accInv_serTextarea acc t h)
  exact h3 _ _ (h2 _ _ (h1 _ _ h0))

/-- The form-level invariant: every key of FieldSet is in DefinedFields. -/
def FormInv (f : Form) : Prop :=
  ∀ p ∈ f.fields, f.definedFields.contains p.1 = true

theorem formInv_NewForm (doc : FormDoc) : FormInv (NewForm doc) :=
  accInv_serializeForm doc

theorem formInv_applyOp (f : Form) (op : FieldOp) (h : FormInv f) :
    FormInv (f.applyOp op) := by
  cases op with
  | input n v =>
    by_cases hc : f.definedFields.contains n = true
    · simp only [Form.applyOp, Form.input, hc, if_true]
      intro p hp
      rcases Values.keys_Set f.fields n v p hp with h1 | ⟨q, hq, hq1⟩
      · rw [h1]
        exact hc
      · exact hq1 ▸ h q hq
    · simp only [Form.applyOp, Form.input, hc, if_false]
      exact h
  | inputSlice n vs =>
    by_cases hc : f.definedFields.contains n = true
    · simp only [Form.applyOp, Form.inputSlice, hc, if_true]
      intro p hp
      rcases Values.keys_foldl_Add vs _ n p hp with h1 | ⟨q, hq, hq1⟩
      · rw [h1]
        exact hc
      · exact hq1 ▸ h q (Values.mem_Del f.fields n q hq)
    · simp only [Form.applyOp, Form.inputSlice, hc, if_false]
      exact h
  | checkBox n vs =>
    by_cases hc : f.definedFields.contains n = true
    · simp only [Form.applyOp, Form.checkBox, Form.inputSlice, hc, if_true]
      intro p hp
      rcases Values.keys_foldl_Add vs _ n p hp with h1 | ⟨q, hq, hq1⟩
      · rw [h1]
        exact hc
      · exact hq1 ▸ h q (Values.mem_Del f.fields n q hq)
    · simp only [Form.applyOp, Form.checkBox, Form.inputSlice, hc, if_false]
      exact h
  | deleteField n =>
    by_cases hc : f.definedFields.contains n = true
    · simp only [Form.applyOp, Form.deleteField, hc, if_true]
      intro p hp
      exact h p (Values.mem_Del f.fields n p hp)
    · simp only [Form.applyOp, Form.deleteField, hc, if_false]
      exact h

theorem formInv_applyOps (f : Form) (ops : List FieldOp) (h : FormInv f) :
    FormInv (f.applyOps ops) := by
  induction ops generalizing f with
  | nil => exact h
  | cons op ops ih =>
    exact ih _ (formInv_applyOp f op h)

/-! ### Lemmas about `send`, `click` and `submit` -/

theorem send_values (f : Form) (bn bv : String) :
    (f.send bn bv).values =
      (if bn != "" then Values.Set f.fields bn bv else f.fields) := by
  unfold Form.send
  by_cases h1 : toUpper ((f.doc.methodAttr).getD "GET") = "GET"
  · have hb1 : (toUpper ((f.doc.methodAttr).getD "GET") == "GET") = true := by
      simpa using h1
    simp [hb1, Request.values]
  · have hb1 : (toUpper ((f.doc.methodAttr).getD "GET") == "GET") = false := by
      simpa using h1
    by_cases h2 : (f.doc.enctypeAttr).getD "" = "multipart/form-data"
    · have hb2 : ((f.doc.enctypeAttr).getD "" == "multipart/form-data") = true := by
        simpa using h2
      simp [hb1, hb2, Request.values]
    · have hb2 : ((f.doc.enctypeAttr).getD "" == "multipart/form-data") = false := by
        simpa using h2
      simp [hb1, hb2, Request.values]

theorem send_kind (f : Form) (bn bv : String) :
    (f.send bn bv).kind =
      (if toUpper ((f.doc.methodAttr).getD "GET") = "GET" then ReqKind.openForm
       else if (f.doc.enctypeAttr).getD "" = "multipart/form-data" then
         ReqKind.postMultipart
       else ReqKind.postForm) := by
  unfold Form.send
  by_cases h1 : toUpper ((f.doc.methodAttr).getD "GET") = "GET"
  · have hb1 : (toUpper ((f.doc.methodAttr).getD "GET") == "GET") = true := by
      simpa using h1
    simp [hb1, h1, Request.kind]
  · have hb1 : (toUpper ((f.doc.methodAttr).getD "GET") == "GET") = false := by
      simpa using h1
    by_cases h2 : (f.doc.enctypeAttr).getD "" = "multipart/form-data"
    · have hb2 : ((f.doc.enctypeAttr).getD "" == "multipart/form-data") = true := by
        simpa using h2
      simp [hb1, h1, hb2, h2, Request.kind]
    · have hb2 : ((f.doc.enctypeAttr).getD "" == "multipart/form-data") = false := by
        simpa using h2
      simp [hb1, h1, hb2, h2, Request.kind]

theorem click_ok (f : Form) (b : String)
    (h : Values.hasKey f.buttons b = true) :
    f.click b = .ok (f.send b ((Values.lookup f.buttons b).headD "")) := by
  unfold Form.click
  rw [if_pos h]

theorem click_err (f : Form) (b : String)
    (h : Values.hasKey f.buttons b = false) :
    f.click b = .error (.invalidFormValue b) := by
  unfold Form.click
  rw [if_neg (by rw [h]; exact Bool.false_ne_true)]

theorem click_ok_inv (f : Form) (b : String) (r : Request)
    (h : f.click b = .ok r) :
    r = f.send b ((Values.lookup f.buttons b).headD "") := by
  unfold Form.click at h
  by_cases hk : Values.hasKey f.buttons b = true
  · rw [if_pos hk] at h
    exact (Except.ok.injEq _ _ ▸ h).symm
  · rw [if_neg hk] at h
    cases h

theorem submit_ok_inv (f : Form) (r : Request) (h : f.submit = .ok r) :
    ∃ bn bv, r = f.send bn bv := by
  unfold Form.submit at h
  cases hb : f.buttons with
  | nil =>
    rw [hb] at h
    exact ⟨"", "", (Except.ok.injEq _ _ ▸ h).symm⟩
  | cons p rest =>
    rw [hb] at h
    exact ⟨p.1, (Values.lookup f.buttons p.1).headD "", click_ok_inv f p.1 r h⟩

deriving instance DecidableEq for Except

/-! ### Concrete forms used as witnesses and counterexamples -/

/-- The form of the repository's first test fixture: a text field, an
unchecked radio pair, two submit buttons, `method="post"`. -/
def testFormDoc : FormDoc :=
  { inputs :=
      [⟨.input, some "age", some "text", some "", none⟩,
       ⟨.input, some "gender", some "radio", some "male", none⟩,
       ⟨.input, some "gender", some "radio", some "female", none⟩,
       ⟨.input, some "submit1", some "submit", some "submitted1", none⟩,
       ⟨.input, some "submit2", some "submit", some "submitted2", none⟩],
    selects := [], textareas := [],
    methodAttr := some "post", actionAttr := some "/", enctypeAttr := none }

/-- Three checkboxes named `music`: jazz checked, rock unchecked, fusion
checked (the spec's checkbox-semantics example). -/
def musicDoc : FormDoc :=
  { inputs :=
      [⟨.input, some "music", some "checkbox", some "jazz", some "checked"⟩,
       ⟨.input, some "music", some "checkbox", some "rock", none⟩,
       ⟨.input, some "music", some "checkbox", some "fusion", some ""⟩],
    selects := [], textareas := [],
    methodAttr := none, actionAttr := none, enctypeAttr := none }

/-- A form whose only control is a submit input named by the empty
string. -/
def emptyNameButtonDoc : FormDoc :=
  { inputs := [⟨.input, some "", some "submit", some "x", none⟩],
    selects := [], textareas := [],
    methodAttr := none, actionAttr := none, enctypeAttr := none }

/-- A submit input and a text field both named by the empty string. -/
def emptyNameFieldDoc : FormDoc :=
  { inputs :=
      [⟨.input, some "", some "submit", some "bv", none⟩,
       ⟨.input, some "", some "text", some "fv", none⟩],
    selects := [], textareas := [],
    methodAttr := none, actionAttr := none, enctypeAttr := none }

/-- A named input element carrying no `type` attribute at all. -/
def inputNoTypeDoc : FormDoc :=
  { inputs := [⟨.input, some "x", none, some "v", none⟩],
    selects := [], textareas := [],
    methodAttr := none, actionAttr := none, enctypeAttr := none }

/-- Two named `button` elements: one with no `type` attribute, one with
`type="button"`. -/
def plainButtonDoc : FormDoc :=
  { inputs :=
      [⟨.button, some "b", none, none, none⟩,
       ⟨.button, some "c", some "button", some "cv", none⟩],
    selects := [], textareas := [],
    methodAttr := none, actionAttr := none, enctypeAttr := none }

/-- A text field and a submit control sharing the name `s`. -/
def sharedNameDoc : FormDoc :=
  { inputs :=
      [⟨.input, some "s", some "text", some "f1", none⟩,
       ⟨.input, some "s", some "submit", some "sv", none⟩],
    selects := [], textareas := [],
    methodAttr := none, actionAttr := none, enctypeAttr := none }

/-! ### The claims -/

/-- C1: every submission dispatched by `Click` or `Submit` goes through
`OpenForm` (query-string GET) when the form's `method` attribute,
uppercased and defaulting to `"GET"` when absent, equals `"GET"`;
otherwise through `PostMultipart` exactly when the `enctype` attribute
equals `"multipart/form-data"`, and through `PostForm` (url-encoded POST)
in every other case — the choice depends only on the declared method and
enctype, never on field content. -/
theorem c1_dispatch_by_method_and_enctype (f : Form) (r : Request)
    (h : (∃ b, f.click b = .ok r) ∨ f.submit = .ok r) :
    r.kind =
      (if toUpper ((f.doc.methodAttr).getD "GET") = "GET" then ReqKind.openForm
       else if (f.doc.enctypeAttr).getD "" = "multipart/form-data" then
         ReqKind.postMultipart
       else ReqKind.postForm) := by
  rcases h with ⟨b, hb⟩ | hs
  · rw [click_ok_inv f b r hb]
    exact send_kind f b _
  · obtain ⟨bn, bv, hr⟩ := submit_ok_inv f r hs
    rw [hr]
    exact send_kind f bn bv

/-- C1 witness: clicking `submit2` on the test form (`method="post"`, no
enctype) dispatches a url-encoded POST. -/
theorem c1_dispatch_witness :
    (NewForm testFormDoc).click "submit2" =
      .ok (Request.postForm
        (Values.Set (NewForm testFormDoc).fields "submit2" "submitted2")) ∧
    Request.kind (Request.postForm
        (Values.Set (NewForm testFormDoc).fields "submit2" "submitted2")) =
      (if toUpper (((NewForm testFormDoc).doc.methodAttr).getD "GET") = "GET"
       then ReqKind.openForm
       else if ((NewForm testFormDoc).doc.enctypeAttr).getD "" =
           "multipart/form-data" then ReqKind.postMultipart
       else ReqKind.postForm) :=
  ⟨by decide,
   c1_dispatch_by_method_and_enctype (NewForm testFormDoc) _
     (Or.inl ⟨"submit2", by decide⟩)⟩

/-- C2 counterexample: a submit control named by the empty string is a
`ButtonSet` key; `Click ""` succeeds but dispatches the bare `FieldSet`,
not the FieldSet merged with the button's name/value pair, because `send`
only merges the pair when the button name is non-empty. -/
theorem c2_empty_button_name_counterexample :
    Values.hasKey (NewForm emptyNameButtonDoc).buttons "" = true ∧
    (NewForm emptyNameButtonDoc).click "" = .ok (Request.openForm []) ∧
    Request.values (Request.openForm []) ≠
      Values.Set (NewForm emptyNameButtonDoc).fields ""
        ((Values.lookup (NewForm emptyNameButtonDoc).buttons "").headD "") := by
  decide

/-- C2 amended: for every non-empty button name `b` that is a `ButtonSet`
key, `Click b` succeeds and dispatches all current FieldSet entries merged
with the pair `(b, first recorded value of ButtonSet[b])`; for every `b`
that is not a key, `Click b` fails with an invalid-form-value error naming
`b`; when the empty string is a `ButtonSet` key, `Click ""` succeeds but
dispatches the FieldSet without merging any button pair. -/
theorem c2_click_merges_first_button_value (f : Form) (b : String) :
    (b ≠ "" → Values.hasKey f.buttons b = true →
      ∃ r, f.click b = .ok r ∧
        r.values =
          Values.Set f.fields b ((Values.lookup f.buttons b).headD "")) ∧
    (Values.hasKey f.buttons b = false →
      f.click b = .error (.invalidFormValue b)) ∧
    (b = "" → Values.hasKey f.buttons b = true →
      ∃ r, f.click b = .ok r ∧ r.values = f.fields) := by
  refine ⟨?_, ?_, ?_⟩
  · intro hne hk
    refine ⟨_, click_ok f b hk, ?_⟩
    rw [send_values]
    have hb : (b != "") = true := by simpa using hne
    rw [if_pos hb]
  · intro hk
    exact click_err f b hk
  · intro he hk
    refine ⟨_, click_ok f b hk, ?_⟩
    rw [send_values]
    have hb : (b != "") = false := by simpa using he
    rw [if_neg (by rw [hb]; exact Bool.false_ne_true)]

/-- C2 witness: on the test form, clicking `submit2` merges
`submit2=submitted2` into the submission, and clicking an unknown button
name fails naming it. -/
theorem c2_click_witness :
    (∃ r, (NewForm testFormDoc).click "submit2" = .ok r ∧
      r.values = Values.Set (NewForm testFormDoc).fields "submit2"
        ((Values.lookup (NewForm testFormDoc).buttons "submit2").headD "")) ∧
    (NewForm testFormDoc).click "nope" =
      .error (.invalidFormValue "nope") :=
  ⟨(c2_click_merges_first_button_value (NewForm testFormDoc) "submit2").1
      (by decide) (by decide),
   (c2_click_merges_first_button_value (NewForm testFormDoc) "nope").2.1
      (by decide)⟩

/-- C10 counterexample: with a submit control and a text field both named
by the empty string, `""` is a `ButtonSet` key and a defined field with a
current value, yet `Click ""` dispatches the field's value `fv`, not the
button's first value `bv`. -/
theorem c10_empty_name_counterexample :
    Values.hasKey (NewForm emptyNameFieldDoc).buttons "" = true ∧
    (NewForm emptyNameFieldDoc).definedFields.contains "" = true ∧
    Values.lookup (NewForm emptyNameFieldDoc).fields "" = ["fv"] ∧
    (Values.lookup (NewForm emptyNameFieldDoc).buttons "").headD "" = "bv" ∧
    (NewForm emptyNameFieldDoc).click "" =
      .ok (Request.openForm [("", ["fv"])]) ∧
    Values.lookup (Request.values (Request.openForm [("", ["fv"])])) "" ≠
      ["bv"] := by
  decide

/-- C10 amended: for every non-empty button name `b` in `ButtonSet` that
is also a defined field name with one or more current values, `Click b`
submits values in which `b` maps to exactly the single first recorded
button value, replacing the field's values; when the shared name is the
empty string the field's values are sent unchanged instead. -/
theorem c10_button_replaces_field_values (f : Form) (b : String)
    (hb : b ≠ "") (hk : Values.hasKey f.buttons b = true)
    (_hd : f.definedFields.contains b = true)
    (_hv : Values.lookup f.fields b ≠ []) :
    ∃ r, f.click b = .ok r ∧
      Values.lookup r.values b = [(Values.lookup f.buttons b).headD ""] := by
  refine ⟨_, click_ok f b hk, ?_⟩
  rw [send_values]
  have hbb : (b != "") = true := by simpa using hb
  rw [if_pos hbb, Values.lookup_Set, if_pos rfl]

/-- C10 witness: with a text field and a submit control both named `s`,
clicking `s` submits the button's value in place of the field's value. -/
theorem c10_replaces_witness :
    ∃ r, (NewForm sharedNameDoc).click "s" = .ok r ∧
      Values.lookup r.values "s" =
        [(Values.lookup (NewForm sharedNameDoc).buttons "s").headD ""] :=
  c10_button_replaces_field_values (NewForm sharedNameDoc) "s"
    (by decide) (by decide) (by decide) (by decide)

/-- C3: after extraction and any sequence of `Input`, `InputSlice`,
`CheckBox` and `DeleteField` calls (each leaving the form unchanged when
it fails), every name with an entry in FieldSet is a member of
DefinedFields. -/
theorem c3_fieldset_keys_defined (doc : FormDoc) (ops : List FieldOp)
    (p : String × List String)
    (hp : p ∈ ((NewForm doc).applyOps ops).fields) :
    ((NewForm doc).applyOps ops).definedFields.contains p.1 = true :=
  formInv_applyOps (NewForm doc) ops (formInv_NewForm doc) p hp

/-- C3 witness: on the test form after an `Input` on `gender`, the
FieldSet entry for `gender` has its name defined. -/
theorem c3_invariant_witness :
    ("gender", ["male"]) ∈
      ((NewForm testFormDoc).applyOps [.input "gender" "male"]).fields ∧
    ((NewForm testFormDoc).applyOps
        [.input "gender" "male"]).definedFields.contains "gender" = true :=
  ⟨by decide,
   c3_fieldset_keys_defined testFormDoc [.input "gender" "male"]
     ("gender", ["male"]) (by decide)⟩

/-- C4 counterexample: a named input carrying no `type` attribute at all
is skipped entirely by extraction — contrary to the claim, its name is
not marked in DefinedFields (and no value is recorded), because the code
only processes elements whose `type` attribute is present. -/
theorem c4_no_type_attr_counterexample :
    (⟨CtrlTag.input, some "x", none, some "v", none⟩ : InputElem) ∈
      inputNoTypeDoc.inputs ∧
    (serializeForm inputNoTypeDoc).definedFields.contains "x" = false ∧
    (serializeForm inputNoTypeDoc).fields = [] := by
  decide

/-- C4 amended: for every descendant input element with a `name`
attribute and a `type` attribute whose value is not `"submit"`,
`"radio"` or `"checkbox"` (text, hidden, password, ...), extraction marks
the name in DefinedFields and the element contributes its `value`
attribute to FieldSet[name] exactly when a `value` attribute is present
(no value at all otherwise, not an empty string); FieldSet[name] is the
document-order concatenation of all contributions; an input with no
`type` attribute at all is skipped entirely (neither defined nor
contributing). -/
theorem c4_typed_inputs_extracted (doc : FormDoc) (e : InputElem)
    (n t : String) (he : e ∈ doc.inputs) (hn : e.name = some n)
    (ht : e.typ = some t) (h1 : t ≠ "submit") (h2 : t ≠ "radio")
    (h3 : t ≠ "checkbox") :
    (serializeForm doc).definedFields.contains n = true ∧
    fieldContrib n e =
      (match e.value with
       | some v => [v]
       | none => []) ∧
    Values.lookup (serializeForm doc).fields n =
      contribs (fieldContrib n) doc.inputs ++
        contribs (selectContrib n) doc.selects ++
        contribs (textContrib n) doc.textareas ∧
    (∀ e2 ∈ doc.inputs, e2.typ = none →
      fieldContrib n e2 = [] ∧ definesInput n e2 = false) := by
  obtain ⟨tag, name, typ, value, checked⟩ := e
  have hn' : name = some n := hn
  have ht' : typ = some t := ht
  subst hn'
  subst ht'
  have hts : (t == "submit") = false := by simpa using h1
  have htr : (t == "radio") = false := by simpa using h2
  have htc : (t == "checkbox") = false := by simpa using h3
  have hb2 : (t == "radio" || t == "checkbox") = false := by
    rw [htr, htc]
    rfl
  refine ⟨?_, ?_, serializeForm_fields doc n, ?_⟩
  · rw [serializeForm_defined]
    have hdef : definesInput n ⟨tag, some n, some t, value, checked⟩ = true := by
      simp [definesInput, hts]
    have hany : doc.inputs.any (definesInput n) = true :=
      List.any_eq_true.mpr ⟨_, he, hdef⟩
    rw [hany]
    rfl
  · cases value <;> simp [fieldContrib, hts, hb2]
  · intro e2 he2 htn
    obtain ⟨tag2, name2, typ2, value2, checked2⟩ := e2
    have htn' : typ2 = none := htn
    subst htn'
    cases name2 <;> exact ⟨rfl, rfl⟩

/-- C4 witness: the `age` text input of the test form is defined, its
empty-string `value` attribute is its single contribution, and the field
list is the concatenation of contributions. -/
theorem c4_typed_witness :
    (serializeForm testFormDoc).definedFields.contains "age" = true ∧
    fieldContrib "age"
      ⟨CtrlTag.input, some "age", some "text", some "", none⟩ = [""] ∧
    Values.lookup (serializeForm testFormDoc).fields "age" =
      contribs (fieldContrib "age") testFormDoc.inputs ++
        contribs (selectContrib "age") testFormDoc.selects ++
        contribs (textContrib "age") testFormDoc.textareas ∧
    (∀ e2 ∈ testFormDoc.inputs, e2.typ = none →
      fieldContrib "age" e2 = [] ∧ definesInput "age" e2 = false) :=
  c4_typed_inputs_extracted testFormDoc
    ⟨CtrlTag.input, some "age", some "text", some "", none⟩ "age" "text"
    (by decide) rfl rfl (by decide) (by decide) (by decide)

/-- C5 counterexample: a named `button` element with no `type` attribute
is skipped (it is not added to ButtonSet), and a named `button` element
with `type="button"` becomes a defined field instead of a ButtonSet
entry — contrary to the claim that every named button element lands in
ButtonSet and stays out of DefinedFields. -/
theorem c5_plain_button_counterexample :
    (⟨CtrlTag.button, some "b", none, none, none⟩ : InputElem) ∈
      plainButtonDoc.inputs ∧
    (⟨CtrlTag.button, some "c", some "button", some "cv", none⟩ : InputElem) ∈
      plainButtonDoc.inputs ∧
    (serializeForm plainButtonDoc).buttons = [] ∧
    (serializeForm plainButtonDoc).definedFields.contains "c" = true := by
  decide

/-- C5 amended: `ButtonSet[n]` is exactly the document-order
contributions of the `input`/`button` elements with a `name` attribute
and a `type` attribute equal to `"submit"`; each such element contributes
its `(name, value-or-"")` pair and does not mark its name in
DefinedFields; a name appearing only in such submit controls (and in no
select or textarea) never becomes a member of DefinedFields. -/
theorem c5_submit_controls_extracted (doc : FormDoc) (n : String) :
    Values.lookup (serializeForm doc).buttons n =
      contribs (buttonContrib n) doc.inputs ∧
    (∀ e ∈ doc.inputs, e.name = some n → e.typ = some "submit" →
      buttonContrib n e = [e.value.getD ""] ∧ definesInput n e = false) ∧
    ((∀ e ∈ doc.inputs, e.name = some n → e.typ = some "submit") →
      (∀ s ∈ doc.selects, definesSelect n s = false) →
      (∀ t2 ∈ doc.textareas, definesTextarea n t2 = false) →
      (serializeForm doc).definedFields.contains n = false) := by
  refine ⟨serializeForm_buttons doc n, ?_, ?_⟩
  · intro e he hn ht
    obtain ⟨tag, name, typ, value, checked⟩ := e
    have hn' : name = some n := hn
    have ht' : typ = some "submit" := ht
    subst hn'
    subst ht'
    constructor
    · cases value <;> simp [buttonContrib]
    · simp [definesInput]
  · intro h1 h2 h3
    rw [serializeForm_defined]
    have ha : doc.inputs.any (definesInput n) = false := by
      rw [List.any_eq_false]
      intro e he
      obtain ⟨tag, name, typ, value, checked⟩ := e
      cases name with
      | none => simp [definesInput]
      | some nm =>
        by_cases hnm : nm = n
        · have ht' : typ = some "submit" :=
            h1 ⟨tag, some nm, typ, value, checked⟩ he (by rw [hnm])
          subst ht'
          simp [definesInput]
        · have hb : (nm == n) = false := by simpa using hnm
          cases typ with
          | none => simp [definesInput]
          | some t => simp [definesInput, hb]
    have hs : doc.selects.any (definesSelect n) = false := by
      rw [List.any_eq_false]
      intro s hsm
      simp [h2 s hsm]
    have ht : doc.textareas.any (definesTextarea n) = false := by
      rw [List.any_eq_false]
      intro t2 htm
      simp [h3 t2 htm]
    rw [ha, hs, ht]
    rfl

/-- C5 witness: on the test form, `ButtonSet["submit1"]` is the
contribution list of its submit controls, the `submit1` control
contributes `["submitted1"]` without defining the name, and `submit1`
never becomes a defined field. -/
theorem c5_submit_witness :
    Values.lookup (serializeForm testFormDoc).buttons "submit1" =
      contribs (buttonContrib "submit1") testFormDoc.inputs ∧
    buttonContrib "submit1"
      ⟨CtrlTag.input, some "submit1", some "submit", some "submitted1",
        none⟩ = ["submitted1"] ∧
    definesInput "submit1"
      ⟨CtrlTag.input, some "submit1", some "submit", some "submitted1",
        none⟩ = false ∧
    (serializeForm testFormDoc).definedFields.contains "submit1" = false :=
  ⟨(c5_submit_controls_extracted testFormDoc "submit1").1,
   ((c5_submit_controls_extracted testFormDoc "submit1").2.1 _
      (by decide) rfl rfl).1,
   ((c5_submit_controls_extracted testFormDoc "submit1").2.1 _
      (by decide) rfl rfl).2,
   (c5_submit_controls_extracted testFormDoc "submit1").2.2
      (by decide) (by decide) (by decide)⟩

/-- C6: a radio/checkbox input with a `name` attribute marks its name in
DefinedFields and contributes its `value` attribute exactly when both a
`checked` attribute (presence only) and a `value` attribute are present,
with FieldSet[name] the document-order concatenation of contributions;
in particular three `music` checkboxes jazz (checked), rock (unchecked),
fusion (checked) yield initial FieldSet `music = [jazz, fusion]`, and
`CheckBox("music", [rock, fusion])` followed by submission sends
`music=rock` and `music=fusion` and not `music=jazz`. -/
theorem c6_radio_checkbox_extraction :
    (∀ (doc : FormDoc) (e : InputElem) (n t : String),
      e ∈ doc.inputs → e.name = some n → e.typ = some t →
      (t = "radio" ∨ t = "checkbox") →
      (serializeForm doc).definedFields.contains n = true ∧
      fieldContrib n e =
        (if e.checked.isSome then
          (match e.value with
           | some v => [v]
           | none => [])
         else []) ∧
      Values.lookup (serializeForm doc).fields n =
        contribs (fieldContrib n) doc.inputs ++
          contribs (selectContrib n) doc.selects ++
          contribs (textContrib n) doc.textareas) ∧
    (Values.lookup (NewForm musicDoc).fields "music" = ["jazz", "fusion"] ∧
      ∃ f2, (NewForm musicDoc).checkBox "music" ["rock", "fusion"] = .ok f2 ∧
        ∃ r, f2.submit = .ok r ∧
          Values.lookup r.values "music" = ["rock", "fusion"] ∧
          ¬ "jazz" ∈ Values.lookup r.values "music") := by
  constructor
  · intro doc e n t he hn ht ht2
    obtain ⟨tag, name, typ, value, checked⟩ := e
    have hn' : name = some n := hn
    have ht' : typ = some t := ht
    subst hn'
    subst ht'
    have hts : (t == "submit") = false := by
      rcases ht2 with h | h <;> simp [h]
    have hb2 : (t == "radio" || t == "checkbox") = true := by
      rcases ht2 with h | h <;> simp [h]
    refine ⟨?_, ?_, serializeForm_fields doc n⟩
    · rw [serializeForm_defined]
      have hdef : definesInput n ⟨tag, some n, some t, value, checked⟩ = true := by
        simp [definesInput, hts]
      have hany : doc.inputs.any (definesInput n) = true :=
        List.any_eq_true.mpr ⟨_, he, hdef⟩
      rw [hany]
      rfl
    · cases checked <;> cases value <;> simp [fieldContrib, hts, hb2]
  · exact ⟨by decide,
      { NewForm musicDoc with fields := [("music", ["rock", "fusion"])] },
      by decide,
      Request.openForm [("music", ["rock", "fusion"])],
      by decide, by decide, by decide⟩

/-- C6 witness: the general part instantiated at the checked `jazz`
checkbox of the music form. -/
theorem c6_checkbox_witness :
    (serializeForm musicDoc).definedFields.contains "music" = true ∧
    fieldContrib "music"
      ⟨CtrlTag.input, some "music", some "checkbox", some "jazz",
        some "checked"⟩ = ["jazz"] ∧
    Values.lookup (serializeForm musicDoc).fields "music" =
      contribs (fieldContrib "music") musicDoc.inputs ++
        contribs (selectContrib "music") musicDoc.selects ++
        contribs (textContrib "music") musicDoc.textareas :=
  c6_radio_checkbox_extraction.1 musicDoc
    ⟨CtrlTag.input, some "music", some "checkbox", some "jazz",
      some "checked"⟩ "music" "checkbox"
    (by decide) rfl rfl (Or.inr rfl)

/-- C7: for a defined name, `Input(name, v)` succeeds, replaces the whole
value list with the single value `v`, and a subsequent `Field(name)`
returns `(v, true)`; for an undefined name it fails with the
element-not-found error naming the field. -/
theorem c7_input_then_field (f : Form) (n v : String) :
    (f.definedFields.contains n = true →
      f.input n v = .ok { f with fields := Values.Set f.fields n v } ∧
      Values.lookup (Values.Set f.fields n v) n = [v] ∧
      Form.field { f with fields := Values.Set f.fields n v } n = (v, true)) ∧
    (f.definedFields.contains n = false →
      f.input n v = .error (.elementNotFound n)) := by
  constructor
  · intro hc
    refine ⟨?_, ?_, ?_⟩
    · unfold Form.input
      rw [if_pos hc]
    · rw [Values.lookup_Set, if_pos rfl]
    · unfold Form.field
      rw [if_pos hc]
      unfold Values.Get
      rw [Values.lookup_Set, if_pos rfl]
  · intro hc
    unfold Form.input
    rw [if_neg (by rw [hc]; exact Bool.false_ne_true)]

/-- C7 witness: on the test form, `Input("age", "55")` then `Field`
returns `("55", true)`, and `Input` on an unknown name fails. -/
theorem c7_input_witness :
    ((NewForm testFormDoc).input "age" "55" =
      .ok { NewForm testFormDoc with
              fields := Values.Set (NewForm testFormDoc).fields "age" "55" } ∧
      Values.lookup
        (Values.Set (NewForm testFormDoc).fields "age" "55") "age" = ["55"] ∧
      Form.field
        { NewForm testFormDoc with
            fields := Values.Set (NewForm testFormDoc).fields "age" "55" }
        "age" = ("55", true)) ∧
    (NewForm testFormDoc).input "nonexistent" "x" =
      .error (.elementNotFound "nonexistent") :=
  ⟨(c7_input_then_field (NewForm testFormDoc) "age" "55").1 (by decide),
   (c7_input_then_field (NewForm testFormDoc) "nonexistent" "x").2
      (by decide)⟩

/-- C8: for a defined name, `DeleteField(name)` succeeds, removes its
FieldSet entries while keeping it defined, so `Field(name)` returns
`("", true)` and a later `Input(name, v2)` succeeds; for a name never
defined it fails with the element-not-found error. -/
theorem c8_delete_field_clears (f : Form) (n : String) :
    (f.definedFields.contains n = true →
      f.deleteField n = .ok { f with fields := Values.Del f.fields n } ∧
      Values.lookup (Values.Del f.fields n) n = [] ∧
      ({ f with fields := Values.Del f.fields n } : Form).definedFields =
        f.definedFields ∧
      Form.field { f with fields := Values.Del f.fields n } n = ("", true) ∧
      ∀ v2, Form.input { f with fields := Values.Del f.fields n } n v2 =
        .ok { f with fields := Values.Set (Values.Del f.fields n) n v2 }) ∧
    (f.definedFields.contains n = false →
      f.deleteField n = .error (.elementNotFound n)) := by
  constructor
  · intro hc
    refine ⟨?_, ?_, rfl, ?_, ?_⟩
    · unfold Form.deleteField
      rw [if_pos hc]
    · rw [Values.lookup_Del, if_pos rfl]
    · unfold Form.field
      rw [if_pos hc]
      unfold Values.Get
      rw [Values.lookup_Del, if_pos rfl]
    · intro v2
      unfold Form.input
      rw [if_pos hc]
  · intro hc
    unfold Form.deleteField
    rw [if_neg (by rw [hc]; exact Bool.false_ne_true)]

/-- C8 witness: deleting the defined `age` field on the test form clears
its value, keeps it defined, and a later `Input` succeeds; deleting an
unknown name fails. -/
theorem c8_delete_witness :
    ((NewForm testFormDoc).deleteField "age" =
      .ok { NewForm testFormDoc with
              fields := Values.Del (NewForm testFormDoc).fields "age" } ∧
      Values.lookup
        (Values.Del (NewForm testFormDoc).fields "age") "age" = [] ∧
      ({ NewForm testFormDoc with
           fields := Values.Del (NewForm testFormDoc).fields "age" } :
          Form).definedFields = (NewForm testFormDoc).definedFields ∧
      Form.field
        { NewForm testFormDoc with
            fields := Values.Del (NewForm testFormDoc).fields "age" }
        "age" = ("", true) ∧
      ∀ v2, Form.input
          { NewForm testFormDoc with
              fields := Values.Del (NewForm testFormDoc).fields "age" }
          "age" v2 =
        .ok { NewForm testFormDoc with
                fields := Values.Set
                  (Values.Del (NewForm testFormDoc).fields "age") "age" v2 }) ∧
    (NewForm testFormDoc).deleteField "never" =
      .error (.elementNotFound "never") :=
  ⟨(c8_delete_field_clears (NewForm testFormDoc) "age").1 (by decide),
   (c8_delete_field_clears (NewForm testFormDoc) "never").2 (by decide)⟩

/-- C9: for a name not in DefinedFields, `Input`, `InputSlice`,
`CheckBox` and `DeleteField` fail with the element-not-found error
carrying the name and leave the form (DefinedFields, FieldSet, ButtonSet)
unchanged; for a name not a `ButtonSet` key, `Click` fails with the
invalid-form-value error carrying the name and dispatches nothing. -/
theorem c9_unknown_name_errors (f : Form) (n b v : String)
    (vs : List String) :
    (f.definedFields.contains n = false →
      f.input n v = .error (.elementNotFound n) ∧
      f.inputSlice n vs = .error (.elementNotFound n) ∧
      f.checkBox n vs = .error (.elementNotFound n) ∧
      f.deleteField n = .error (.elementNotFound n) ∧
      f.applyOp (.input n v) = f ∧
      f.applyOp (.inputSlice n vs) = f ∧
      f.applyOp (.checkBox n vs) = f ∧
      f.applyOp (.deleteField n) = f) ∧
    (Values.hasKey f.buttons b = false →
      f.click b = .error (.invalidFormValue b)) := by
  constructor
  · intro hc
    have hcn : ¬ f.definedFields.contains n = true := by
      rw [hc]
      exact Bool.false_ne_true
    have hm : n ∉ f.definedFields := fun hmem => hcn (List.elem_iff.mpr hmem)
    refine ⟨?_, ?_, ?_, ?_, ?_, ?_, ?_, ?_⟩ <;>
      simp [Form.input, Form.inputSlice, Form.checkBox, Form.deleteField,
        Form.applyOp, hcn, hm]
  · intro hk
    exact click_err f b hk

/-- C9 witness: on the test form, all five operations fail on unknown
names, mutating nothing. -/
theorem c9_unknown_witness :
    ((NewForm testFormDoc).input "nonexistent" "x" =
        .error (.elementNotFound "nonexistent") ∧
      (NewForm testFormDoc).inputSlice "nonexistent" ["x"] =
        .error (.elementNotFound "nonexistent") ∧
      (NewForm testFormDoc).checkBox "nonexistent" ["x"] =
        .error (.elementNotFound "nonexistent") ∧
      (NewForm testFormDoc).deleteField "nonexistent" =
        .error (.elementNotFound "nonexistent") ∧
      (NewForm testFormDoc).applyOp (.input "nonexistent" "x") =
        NewForm testFormDoc ∧
      (NewForm testFormDoc).applyOp (.inputSlice "nonexistent" ["x"]) =
        NewForm testFormDoc ∧
      (NewForm testFormDoc).applyOp (.checkBox "nonexistent" ["x"]) =
        NewForm testFormDoc ∧
      (NewForm testFormDoc).applyOp (.deleteField "nonexistent") =
        NewForm testFormDoc) ∧
    (NewForm testFormDoc).click "nonexistent" =
      .error (.invalidFormValue "nonexistent") :=
  ⟨(c9_unknown_name_errors (NewForm testFormDoc) "nonexistent" "nonexistent"
      "x" ["x"]).1 (by decide),
   (c9_unknown_name_errors (NewForm testFormDoc) "nonexistent" "nonexistent"
      "x" ["x"]).2 (by decide)⟩

end Surf
